import Mathlib

/-!
# Verification of the dataship streaming group-by / aggregation engine

Shallow embedding of the core of `src/index.js`:

* `dataship.util.insert` / `binarySearch` (src 1655-1681) — the ordered
  insertion index;
* the built-in reducers `count`, `sum`, `mean`, `min`, `max`, `mode`,
  `median` (src 354-448);
* the single-pass grouping engine `dataship.frame.groupby` (src 975-1024);
* the binning grouper constructor `dataship.frame.groupers.interval`
  (src 1096-1129).

JS numbers are modeled as exact rationals (`ℚ`); none of the verified
claims depends on floating-point rounding.  Plain JS objects used as
dictionaries are modeled as association lists in property-insertion
order, with a separate function `jsOwnKeys` reproducing the ECMAScript
own-property enumeration order (integer-like keys ascending first, then
the remaining string keys in insertion order).
-/

namespace DS

/-- JS numbers (exact model). -/
abbrev Num := ℚ

/-! ## Association-list model of plain JS objects used as dictionaries

`alookup o k` models `o[k]` (`none` = the property is absent, i.e. the
JS read yields `undefined`); `aset o k v` models `o[k] = v`: the first
assignment to a key appends the property at the end, later assignments
overwrite in place.  Prototype-inherited properties are out of scope:
all group keys considered here are treated as own-property keys. -/
def alookup {K V : Type} [DecidableEq K] : List (K × V) → K → Option V
  | [], _ => none
  | (k, v) :: rest, key => if k = key then some v else alookup rest key

def aset {K V : Type} [DecidableEq K] : List (K × V) → K → V → List (K × V)
  | [], key, v => [(key, v)]
  | (k, w) :: rest, key, v =>
      if k = key then (k, v) :: rest else (k, w) :: aset rest key v

/-! ## Ordered insertion index: `binarySearch` and `dataship.util.insert`

Source (src 1655-1681):

    var d = function(a, b){ return a > b ? 1 : a < b ? -1 : 0;};

    dataship.util.insert = function insert(arr, el){
      var index = binarySearch(arr, el, d);
      arr.splice(index, 0, el);
      return arr;
    };

    var binarySearch = dataship.util.bs = function binarySearch(arr, el, comparator) {
      var m = 0;
      var n = arr.length - 1;
      while (m <= n) {
        var k = (n + m) >> 1;
        var cmp = comparator(el, arr[k]);
        if (cmp > 0) { m = k + 1; }
        else if (cmp < 0) { n = k - 1; }
        else { return k; }
      }
      return m;
    }
-/
/-- The three-way comparator `d` (src 1655). -/
def d (a b : Num) : Int := if a > b then 1 else if a < b then -1 else 0

/-- The `while (m <= n)` loop of `binarySearch` (src 1668-1678), with the
loop counters as integers exactly as in the source (`n` starts at
`arr.length - 1`, which is `-1` on an empty array).  JS `(n + m) >> 1` is
floor division by two, which is `Int` division (`Int.ediv`) for the
positive divisor `2`.  Out-of-range reads `arr[k]` never occur in the
reachable region (`0 ≤ m ≤ k ≤ n < arr.length`, proved below); they are
modeled by `List.getD _ _ 0`.  The structural `fuel` argument bounds the
number of iterations; `fuel > n + 1 - m` never runs out (proved below),
so the `fuel = 0` branch is unreachable from `binarySearch`. -/
def bsLoop (arr : List Num) (el : Num) (cmp : Num → Num → Int) :
    Nat → Int → Int → Int
  | 0, m, _ => m
  | fuel + 1, m, n =>
      if m ≤ n then
        let k : Int := (n + m) / 2
        let c : Int := cmp el (arr.getD k.toNat 0)
        if 0 < c then bsLoop arr el cmp fuel (k + 1) n
        else if c < 0 then bsLoop arr el cmp fuel m (k - 1)
        else k
      else m

/-- `binarySearch(arr, el, comparator)` (src 1664-1681). -/
def binarySearch (arr : List Num) (el : Num) (cmp : Num → Num → Int) : Int :=
  bsLoop arr el cmp (arr.length + 1) 0 ((arr.length : Int) - 1)

end DS

namespace dataship

namespace util

/-- `dataship.util.insert` (src 1657-1662): `arr.splice(index, 0, el)` is
`List.insertIdx index el`; the returned index is provably nonnegative
and at most `arr.length` for a sorted array (see the contract below). -/
def insert (arr : List DS.Num) (el : DS.Num) : List DS.Num :=
  let index := DS.binarySearch arr el DS.d
  arr.insertIdx index.toNat el

end util

end dataship

namespace DS

/-- The binary-search insertion-point contract of spec §4.1: `i` is a
position at which inserting `el` into `arr` preserves sortedness. -/
def insertionPointAt (arr : List Num) (el : Num) (i : Nat) : Prop :=
  i ≤ arr.length ∧
    (∀ j : Nat, j < i → arr.getD j 0 ≤ el) ∧
    (∀ j : Nat, i ≤ j → j < arr.length → el ≤ arr.getD j 0)

end DS

namespace dataship

namespace reduce

/-- The median read of `dataship.reduce.median` (src 415-423):

    var middle = self.values.length / 2 | 0;
    if(self.values.length % 2 !== 0){ return self.values[middle]; }
    else { return (self.values[middle - 1] + self.values[middle]) / 2; }

(`| 0` truncates, i.e. `Nat` division.) -/
def medianRead (values : List DS.Num) : DS.Num :=
  let middle := values.length / 2
  if values.length % 2 ≠ 0 then values.getD middle 0
  else (values.getD (middle - 1) 0 + values.getD middle 0) / 2

/-- `dataship.reduce.median` (src 401-424).  One reducer call
`median(agg, val, n)`.

The auxiliary state object is read from and written to the *global* slot
`dataship.reduce.mode.state` (src 406 and 409: `self = dataship.reduce.mode.state`)
— NOT to `dataship.reduce.median.state`, which is the `reducer.state`
property that `groupby` swaps in and out per group (src 1018-1020).
`slot` is the current content of `dataship.reduce.mode.state` (`none`
models the slot holding `undefined`).  The result is the pair of the
returned aggregate and the new slot content; `none` models the TypeError
JS raises when the `n ≥ 2` path reads `.values` off an `undefined` slot
(unreachable in the runs considered below). -/
def median (slot : Option (List DS.Num)) (agg val : DS.Num) (n : Nat) :
    Option (DS.Num × Option (List DS.Num)) :=
  if n = 0 then some (val, slot)
  else
    match (if n = 1 then some [agg] else slot) with
    | none => none
    | some values0 =>
        let values := dataship.util.insert values0 val
        some (medianRead values, some values)

/-- Running the remaining contributions of a single group through
`median`, threading the aggregate, the contribution index and the state
slot, exactly as `[...].reduce(ds.reduce.median)` (and as `groupby` does
for a dataset whose rows all belong to one group). -/
def medianRun : Option (List DS.Num) → DS.Num → Nat → List DS.Num → Option DS.Num
  | _, agg, _, [] => some agg
  | slot, agg, n, u :: us =>
      match median slot agg u n with
      | none => none
      | some (r, slot') => medianRun slot' r (n + 1) us

/-- Feeding a whole value sequence as one group's contributions to
`median`: the first value seeds the aggregate (no reducer call, the
no-initial-value convention), the rest are reduced starting at index 1. -/
def medianFold : List DS.Num → Option DS.Num
  | [] => none
  | v :: vs => medianRun none v 1 vs

end reduce

end dataship

namespace DS

/-- The fully sorted multiset of an input sequence. -/
def sortedOf (l : List Num) : List Num := l.insertionSort (· ≤ ·)

/-- The median of the full sorted multiset, as the claim states it:
middle element if the count is odd, average of the elements at indices
`length/2 - 1` and `length/2` if even. -/
def sortedMedian (l : List Num) : Num := dataship.reduce.medianRead (sortedOf l)

end DS

namespace dataship

namespace reduce

/-- `dataship.reduce.count` (src 432): `function(agg, val, n){ return n + 1; }`. -/
def count (agg val : DS.Num) (n : Nat) : DS.Num := n + 1

/-- `dataship.reduce.sum` (src 440): `function(agg, val){ return agg + val; }`. -/
def sum (agg val : DS.Num) (n : Nat) : DS.Num := agg + val

/-- `dataship.reduce.mean` (src 448):
`function(agg, val, n){ return (agg + ((val - agg)/(n + 1))); }`. -/
def mean (agg val : DS.Num) (n : Nat) : DS.Num := agg + (val - agg) / (n + 1)

/-- `dataship.reduce.max` (src 354): `function(agg, val) { return agg > val ? agg : val; }`. -/
def max (agg val : DS.Num) (n : Nat) : DS.Num := if agg > val then agg else val

/-- `dataship.reduce.min` (src 362): `function(agg, val) { return agg < val ? agg : val; }`. -/
def min (agg val : DS.Num) (n : Nat) : DS.Num := if agg < val then agg else val

end reduce

namespace frame

/-- One iteration of the `groupby` pass (src 1000-1022), for a reducer
that is a pure function of `(agg, val, n)` and never touches a state
slot (`count`, `sum`, `mean`, `min`, `max`).  The accumulator carries
the engine's local `result` and `count` objects; the `state[id]` /
`reducer.state` swap (src 1018-1020) moves only objects such a reducer
never reads or writes and is therefore omitted here (it is modeled
explicitly for `median` and `mode` below).  `initial = none` models an
omitted / `null` `initial` argument, so that `initial != null`
(src 1005) is false. -/
def groupbyStep {ρ K : Type} [DecidableEq K] (grouper : ρ → K) (selector : ρ → DS.Num)
    (reducer : DS.Num → DS.Num → Nat → DS.Num) (initial : Option DS.Num)
    (acc : List (K × DS.Num) × List (K × Nat)) (row : ρ) :
    List (K × DS.Num) × List (K × Nat) :=
  let id := grouper row
  let val := selector row
  match DS.alookup acc.1 id, initial with
  | none, none =>
      -- new key, no initial: seed with the value, count 1, `continue`
      -- (the reducer is not invoked for this row) — src 1010-1013
      (DS.aset acc.1 id val, DS.aset acc.2 id 1)
  | none, some init =>
      -- new key, initial supplied: seed with initial, count 0 (src 1006-1007),
      -- then fall through to the reducer call (src 1016-1021)
      (DS.aset (DS.aset acc.1 id init) id (reducer init val 0),
        DS.aset (DS.aset acc.2 id 0) id 1)
  | some agg, _ =>
      -- existing key: invoke the reducer, bump the count (src 1016-1021)
      let n := (DS.alookup acc.2 id).getD 0
      (DS.aset acc.1 id (reducer agg val n), DS.aset acc.2 id (n + 1))

/-- The full pass of `groupby(dataset, grouper, selector, reducer, initial)`
(src 995-1022) for a stateless reducer, returning the pair of the final
`result` and `count` objects. -/
def groupbyAcc {ρ K : Type} [DecidableEq K] (dataset : List ρ) (grouper : ρ → K)
    (selector : ρ → DS.Num) (reducer : DS.Num → DS.Num → Nat → DS.Num)
    (initial : Option DS.Num) : List (K × DS.Num) × List (K × Nat) :=
  dataset.foldl (groupbyStep grouper selector reducer initial) ([], [])

/-- `dataship.frame.groupby` (src 975-1024) for a stateless reducer: the
returned `result` object. -/
def groupby {ρ K : Type} [DecidableEq K] (dataset : List ρ) (grouper : ρ → K)
    (selector : ρ → DS.Num) (reducer : DS.Num → DS.Num → Nat → DS.Num)
    (initial : Option DS.Num) : List (K × DS.Num) :=
  (groupbyAcc dataset grouper selector reducer initial).1

/-- The final `count` object of the pass. -/
def groupbyCounts {ρ K : Type} [DecidableEq K] (dataset : List ρ) (grouper : ρ → K)
    (selector : ρ → DS.Num) (reducer : DS.Num → DS.Num → Nat → DS.Num)
    (initial : Option DS.Num) : List (K × Nat) :=
  (groupbyAcc dataset grouper selector reducer initial).2

/-- `groupby(dataset, grouper)` with `selector`, `reducer` and `initial`
all omitted: `reducer` defaults to `count` with `initial = 0`
(src 978-981) and `selector` defaults to the grouper itself (src 988),
which is well-typed once the group keys are numbers. -/
def groupbyDefault {ρ : Type} (dataset : List ρ) (grouper : ρ → DS.Num) :
    List (DS.Num × DS.Num) :=
  groupby dataset grouper grouper dataship.reduce.count (some 0)

end frame

end dataship

namespace DS

/-- The selected values of the rows of a dataset that a given group key
receives, in dataset order: the reference object `groupby` is verified
against. -/
def contributions {ρ K : Type} [DecidableEq K] (dataset : List ρ) (grouper : ρ → K)
    (selector : ρ → DS.Num) (k : K) : List DS.Num :=
  (dataset.filter (fun r => decide (grouper r = k))).map selector

/-- Folding a reducer over a group's contributions, threading the
contribution index. -/
def foldWithCount (reducer : DS.Num → DS.Num → Nat → DS.Num) :
    DS.Num → Nat → List DS.Num → DS.Num
  | agg, _, [] => agg
  | agg, n, v :: vs => foldWithCount reducer (reducer agg v n) (n + 1) vs

/-- The final aggregate a group key should hold: absent if the key never
occurs; otherwise the reducer folded over the contributions, seeded with
the first contribution (index starting at 1) when no initial value was
supplied, and seeded with the initial value (index starting at 0)
otherwise. -/
def expectedAgg (reducer : DS.Num → DS.Num → Nat → DS.Num) (initial : Option DS.Num)
    (contrib : List DS.Num) : Option DS.Num :=
  match initial, contrib with
  | _, [] => none
  | none, v :: vs => some (foldWithCount reducer v 1 vs)
  | some v0, vs => some (foldWithCount reducer v0 0 vs)

/-- The final contribution count a group key should hold. -/
def expectedCount (contrib : List DS.Num) : Option Nat :=
  match contrib with
  | [] => none
  | vs => some vs.length

/-- The keys of a list in order of first occurrence. -/
def firstEncounter {K : Type} [DecidableEq K] (keys : List K) : List K :=
  keys.foldl (fun acc k => if k ∈ acc then acc else acc ++ [k]) []

/-! ## JS object key enumeration order (for C2)

`groupby` returns a plain JS object; the order in which that object
enumerates its keys (`for..in`, `Object.keys`) is fixed by ECMA-262
§10.1.11 `OrdinaryOwnPropertyKeys`: own property keys that are *integer
indices* (the canonical decimal string of a nonnegative integer) come
first in ascending numeric order, and the remaining string keys follow
in property-insertion order. -/
/-- A group key as produced by a grouper: a JS number (the claims only
exercise integral keys) or a string.  JS converts the key to a string
when it is used as `result[id]`. -/
inductive JsKey : Type
  | num : Int → JsKey
  | str : String → JsKey
deriving DecidableEq

/-- ECMAScript ToPropertyKey/ToString of a group key: integers print in
decimal (with `-` for negatives), strings are themselves. -/
def propertyKey : JsKey → String
  | .num i => toString i
  | .str s => s

/-- Whether a property key is an *array index* in the sense of ECMA-262
(the canonical decimal string of an integer `0 ≤ i < 2^32 - 1`); a plain
object enumerates such keys first, in ascending numeric order
(ECMA-262 §10.1.11 `OrdinaryOwnPropertyKeys`). -/
def isIntegerIndex (s : String) : Bool :=
  match s.toNat? with
  | some n => toString n == s && n < 2 ^ 32 - 1
  | none => false

/-- The numeric value of an integer-index key. -/
def integerIndexVal (s : String) : Nat := (s.toNat?).getD 0

/-- The own-property enumeration order of a plain JS object
(ECMA-262 `OrdinaryOwnPropertyKeys`). -/
def jsOwnKeys {V : Type} (obj : List (String × V)) : List String :=
  ((obj.map Prod.fst).filter isIntegerIndex).mergeSort
      (fun a b => decide (integerIndexVal a ≤ integerIndexVal b))
    ++ (obj.map Prod.fst).filter (fun s => ! isIntegerIndex s)

/-- `groupby` with a grouper producing JS scalar keys, with the JS
coercion of the key to a property string made explicit. -/
def groupbyJs {ρ : Type} (dataset : List ρ) (grouper : ρ → JsKey) (selector : ρ → Num)
    (reducer : Num → Num → Nat → Num) (initial : Option Num) : List (String × Num) :=
  dataship.frame.groupby dataset (fun r => propertyKey (grouper r)) selector reducer initial

end DS

namespace dataship

namespace reduce

/-- The auxiliary state object of `dataship.reduce.mode` (src 375-378): a
frequency table `values` (a plain JS object mapping each seen value to
its occurrence count; distinct numbers stringify to distinct property
keys, so it is keyed by the number itself here) and the current argmax. -/
structure ModeState : Type where
  values : List (DS.Num × Nat)
  argmax : DS.Num
deriving DecidableEq

/-- The frequency-table update of `mode` (src 383-386):
`if(val in self.values) self.values[val] += 1; else self.values[val] = 1;`. -/
def bump (values : List (DS.Num × Nat)) (val : DS.Num) : List (DS.Num × Nat) :=
  match DS.alookup values val with
  | some c => DS.aset values val (c + 1)
  | none => DS.aset values val 1

/-- `dataship.reduce.mode` (src 370-392).  One reducer call
`mode(agg, val, n)`.  `mode` stores its state in
`dataship.reduce.mode.state` — its own function-object property, which is
exactly the `reducer.state` slot `groupby` swaps per group when the
reducer is `mode`, so for `mode` (unlike `median`) the swap is
effective; `slot` is the restored slot content.  After updating the
frequency table, the argmax is overwritten only when
`self.values[val] > self.values[agg]` (src 388); reading the count of an
absent `agg` yields `undefined` and the `>` comparison is then false. -/
def mode (slot : Option ModeState) (agg val : DS.Num) (n : Nat) :
    Option (DS.Num × Option ModeState) :=
  if n = 0 then some (val, slot)
  else
    match (if n = 1 then some (ModeState.mk (DS.aset [] agg 1) agg) else slot) with
    | none => none
    | some self =>
        let values1 := bump self.values val
        let argmax1 :=
          match DS.alookup values1 val, DS.alookup values1 agg with
          | some cv, some ca => if cv > ca then val else self.argmax
          | _, _ => self.argmax
        some (argmax1, some (ModeState.mk values1 argmax1))

/-- Running the remaining contributions of a single group through `mode`,
threading aggregate, contribution index and state slot. -/
def modeRun : Option ModeState → DS.Num → Nat → List DS.Num → Option DS.Num
  | _, agg, _, [] => some agg
  | slot, agg, n, u :: us =>
      match mode slot agg u n with
      | none => none
      | some (r, slot') => modeRun slot' r (n + 1) us

/-- Feeding a whole value sequence as one group's contributions to `mode`
(first value seeds, no reducer call, per the no-initial convention). -/
def modeFold : List DS.Num → Option DS.Num
  | [] => none
  | v :: vs => modeRun none v 1 vs

end reduce

namespace frame

/-- One iteration of the `groupby` pass (src 1000-1022) with
`reducer = dataship.reduce.median` and no initial value.  The engine's
swap (src 1018-1020) installs `state[id]` into `reducer.state` — i.e.
`dataship.reduce.median.state` — before the call and captures it back
after; but `median` reads and writes `dataship.reduce.mode.state`
(src 406, 409), never `median.state`, so the swapped per-group slots
stay forever the empty objects they were created as, and the one live
piece of state is the single global `mode.state` slot, threaded here as
the third accumulator component across ALL groups.  `none` aborts the
pass (TypeError). -/
def groupbyMedianStep {ρ K : Type} [DecidableEq K] (grouper : ρ → K)
    (selector : ρ → DS.Num)
    (acc : List (K × DS.Num) × List (K × Nat) × Option (List DS.Num)) (row : ρ) :
    Option (List (K × DS.Num) × List (K × Nat) × Option (List DS.Num)) :=
  let id := grouper row
  let val := selector row
  match DS.alookup acc.1 id with
  | none =>
      -- new key, no initial: seed, count 1, skip the reducer (src 1010-1013)
      some (DS.aset acc.1 id val, DS.aset acc.2.1 id 1, acc.2.2)
  | some agg =>
      let n := (DS.alookup acc.2.1 id).getD 0
      match dataship.reduce.median acc.2.2 agg val n with
      | none => none
      | some (r, slot') =>
          some (DS.aset acc.1 id r, DS.aset acc.2.1 id (n + 1), slot')

/-- `groupby(dataset, grouper, selector, ds.reduce.median)` (src 975-1024):
the returned `result` object, or `none` if the pass raises. -/
def groupbyMedian {ρ K : Type} [DecidableEq K] (dataset : List ρ) (grouper : ρ → K)
    (selector : ρ → DS.Num) : Option (List (K × DS.Num)) :=
  (dataset.foldlM (groupbyMedianStep grouper selector) ([], [], none)).map
    (fun acc => acc.1)

end frame

end dataship

namespace DS

/-- A dataset row: a JS object mapping field names to (numeric) scalar
values. -/
def Row : Type := List (String × Num)

/-- `row[f]`: reading a field off a row (the fields used by a pass are
assumed present, per the §3 data model; an absent field is defaulted). -/
def getField (row : Row) (f : String) : Num := (alookup row f).getD 0

end DS

namespace dataship

namespace frame

/-- The shapes the `grouper` / `selector` arguments of `groupby` can
take: a field-name string, a callable, or anything else (a number, an
object, `null`, …). -/
inductive SelArg : Type
  | field : String → SelArg
  | fn : (DS.Row → DS.Num) → SelArg
  | other : SelArg

/-- Selector resolution in `groupby` (src 983-993): a string is wrapped
into a field extractor; everything else is passed through unchanged.
There is NO validation — a value that is neither a string nor a callable
is not rejected here (unlike `dataship.frame.column`, src 803). -/
def resolveArg : SelArg → SelArg
  | .field f => .fn (fun row => DS.getField row f)
  | x => x

/-- The one kind of failure the pass can raise for these claims: calling
a non-function (`grouper(row)` / `selector(row)`, src 1002-1003) throws
a TypeError. -/
inductive PassError : Type
  | notAFunction

/-- Applying a (resolved) argument to a row, as the pass does on every
iteration: applying anything that is not a function throws. -/
def applyArg : SelArg → DS.Row → Except PassError DS.Num
  | .fn g, row => .ok (g row)
  | _, _ => .error .notAFunction

/-- `groupby(dataset, grouper, selector)` (src 975-1024) with the
grouper/selector arguments kept in their caller-supplied shape: both are
resolved (src 983-993, a total operation that cannot fail), then the
per-row pass runs with the default `count` reducer and initial `0`
(src 978-981; the reducer choice is irrelevant to the error behavior).
The `selector || grouper` defaulting (src 988) is not exercised: both
arguments are passed explicitly.  A pass error aborts the call. -/
def groupbyArg (dataset : List DS.Row) (grouper selector : SelArg) :
    Except PassError (List (DS.Num × DS.Num)) := do
  let grouperR := resolveArg grouper
  let selectorR := resolveArg selector
  let acc ← dataset.foldlM
    (fun (acc : List (DS.Num × DS.Num) × List (DS.Num × Nat)) row => do
      let id ← applyArg grouperR row
      let val ← applyArg selectorR row
      pure (groupbyStep (fun _ => id) (fun _ => val)
        dataship.reduce.count (some 0) acc ()))
    ([], [])
  pure acc.1

namespace groupers

/-- An interval label: the integer index of the bucket, or a
caller-supplied label string. -/
inductive Lbl : Type
  | idx : Nat → Lbl
  | str : String → Lbl
deriving DecidableEq

/-- The label resolution of `dataship.frame.groupers.interval`
(src 1104-1113), in source order: no labels (`null`) or fewer labels
than bounds → the integer index; at least `bounds.length + 1` labels →
`labels[i]`; exactly `bounds.length` labels → `labels[i]` for the
bounded intervals and `">" + labels[i-1]` for the final unbounded one.
JS stringifies in the `">" +` concatenation, and an out-of-range read
yields `undefined` (stringified `"undefined"`), which is what the
`getD _ "undefined"` defaults model (reachable only for
`bounds = labels = []`). -/
def labeler (bounds : List DS.Num) (labels : Option (List String)) (i : Nat) : Lbl :=
  match labels with
  | none => .idx i
  | some ls =>
      if ls.length < bounds.length then .idx i
      else if ls.length ≥ bounds.length + 1 then .str (ls.getD i "undefined")
      else if i < ls.length then .str (ls.getD i "undefined")
      else .str (">" ++ ls.getD (i - 1) "undefined")

/-- The linear scan of the grouper body (src 1119-1124): the index of
the first bound strictly greater than the value (`val < bounds[i]`), or
`bounds.length` if none is. -/
def intervalIndexFrom (v : DS.Num) : List DS.Num → Nat → Nat
  | [], i => i
  | b :: bs, i => if v < b then i else intervalIndexFrom v bs (i + 1)

/-- `dataship.frame.groupers.interval(selector, bounds, labels)`
(src 1096-1129), as a function of the selected value: the constructed
grouper applies it to `selector(row)`.  (The `.label` display-name
plumbing, src 1098-1102 and 1126, is out of scope of the claims.) -/
def interval (bounds : List DS.Num) (labels : Option (List String)) (v : DS.Num) : Lbl :=
  labeler bounds labels (intervalIndexFrom v bounds 0)

end groupers

/-- One iteration of the `groupby` pass with `reducer = dataship.reduce.mode`
and no initial value.  `mode` keeps its state in `mode.state`, which is
the very `reducer.state` slot the engine swaps (src 1018-1020), so here
the per-group `state` table is effective: the group's slot is restored
before each call and the (possibly replaced) state is captured back
after it.  The fresh `state[id] = {}` of src 1008/1012 is a fieldless
object, modeled as `none` (`mode` overwrites it at `n = 1` before ever
reading it). -/
def groupbyModeStep {ρ K : Type} [DecidableEq K] (grouper : ρ → K)
    (selector : ρ → DS.Num)
    (acc : List (K × DS.Num) × List (K × Nat) ×
      List (K × Option dataship.reduce.ModeState)) (row : ρ) :
    Option (List (K × DS.Num) × List (K × Nat) ×
      List (K × Option dataship.reduce.ModeState)) :=
  let id := grouper row
  let val := selector row
  match DS.alookup acc.1 id with
  | none =>
      some (DS.aset acc.1 id val, DS.aset acc.2.1 id 1, DS.aset acc.2.2 id none)
  | some agg =>
      let n := (DS.alookup acc.2.1 id).getD 0
      match dataship.reduce.mode ((DS.alookup acc.2.2 id).getD none) agg val n with
      | none => none
      | some (r, slot') =>
          some (DS.aset acc.1 id r, DS.aset acc.2.1 id (n + 1),
            DS.aset acc.2.2 id slot')

/-- `groupby(dataset, grouper, selector, ds.reduce.mode)` (src 975-1024). -/
def groupbyMode {ρ K : Type} [DecidableEq K] (dataset : List ρ) (grouper : ρ → K)
    (selector : ρ → DS.Num) : Option (List (K × DS.Num)) :=
  (dataset.foldlM (groupbyModeStep grouper selector) ([], [], [])).map
    (fun acc => acc.1)

/-- The `groupby` pass over an in-memory frame, with the frame threaded
through every iteration of the `for (i = 0; i < dataset.length; i++)`
loop (src 1000): each iteration reads `dataset[i]` and the row's two
fields, and updates only the engine-local `result`/`count` objects.  The
pair returned is (the `result` object, the frame after the pass). -/
def groupbyFrameStep (gf sf : String) (reducer : DS.Num → DS.Num → Nat → DS.Num)
    (initial : Option DS.Num)
    (st : (List (DS.Num × DS.Num) × List (DS.Num × Nat)) × List DS.Row) (i : Nat) :
    (List (DS.Num × DS.Num) × List (DS.Num × Nat)) × List DS.Row :=
  let row := st.2.getD i []
  (groupbyStep (fun row => DS.getField row gf) (fun row => DS.getField row sf)
      reducer initial st.1 row,
    st.2)

/-- `groupby(frame, gf, sf, reducer, initial)` for a stateless reducer,
returning the result object together with the frame as left behind by
the pass. -/
def groupbyFrame (rows : List DS.Row) (gf sf : String)
    (reducer : DS.Num → DS.Num → Nat → DS.Num) (initial : Option DS.Num) :
    List (DS.Num × DS.Num) × List DS.Row :=
  let fin := (List.range rows.length).foldl
    (groupbyFrameStep gf sf reducer initial) (([], []), rows)
  (fin.1.1, fin.2)

/-- As `groupbyFrame`, with `reducer = median` (frame threaded the same
way; a pass TypeError yields `none` for the result component). -/
def groupbyMedianFrameStep (gf sf : String)
    (st : Option (List (DS.Num × DS.Num) × List (DS.Num × Nat) ×
        Option (List DS.Num)) × List DS.Row) (i : Nat) :
    Option (List (DS.Num × DS.Num) × List (DS.Num × Nat) ×
      Option (List DS.Num)) × List DS.Row :=
  match st.1 with
  | none => (none, st.2)
  | some acc =>
      (groupbyMedianStep (fun row => DS.getField row gf)
          (fun row => DS.getField row sf) acc (st.2.getD i []),
        st.2)

def groupbyMedianFrame (rows : List DS.Row) (gf sf : String) :
    Option (List (DS.Num × DS.Num)) × List DS.Row :=
  let fin := (List.range rows.length).foldl (groupbyMedianFrameStep gf sf)
    (some ([], [], none), rows)
  (fin.1.map (fun acc => acc.1), fin.2)

/-- As `groupbyFrame`, with `reducer = mode`. -/
def groupbyModeFrameStep (gf sf : String)
    (st : Option (List (DS.Num × DS.Num) × List (DS.Num × Nat) ×
        List (DS.Num × Option dataship.reduce.ModeState)) × List DS.Row) (i : Nat) :
    Option (List (DS.Num × DS.Num) × List (DS.Num × Nat) ×
      List (DS.Num × Option dataship.reduce.ModeState)) × List DS.Row :=
  match st.1 with
  | none => (none, st.2)
  | some acc =>
      (groupbyModeStep (fun row => DS.getField row gf)
          (fun row => DS.getField row sf) acc (st.2.getD i []),
        st.2)

def groupbyModeFrame (rows : List DS.Row) (gf sf : String) :
    Option (List (DS.Num × DS.Num)) × List DS.Row :=
  let fin := (List.range rows.length).foldl (groupbyModeFrameStep gf sf)
    (some ([], [], []), rows)
  (fin.1.map (fun acc => acc.1), fin.2)

end frame

end dataship

/-! ## Theorems -/

namespace DS

theorem alookup_aset {K V : Type} [DecidableEq K] (l : List (K × V)) (k k' : K) (v : V) :
    alookup (aset l k v) k' = if k = k' then some v else alookup l k' := by
  induction l with
  | nil =>
      by_cases h : k = k' <;> simp [aset, alookup, h]
  | cons p rest ih =>
      obtain ⟨a, w⟩ := p
      by_cases hak : a = k
      · subst hak
        by_cases hk' : a = k' <;> simp [aset, alookup, hk']
      · simp only [aset, if_neg hak, alookup]
        by_cases hak' : a = k'
        · subst hak'
          have hka : ¬ k = a := fun h => hak h.symm
          simp [hka, alookup]
        · simp [hak', ih]

theorem map_fst_aset_of_none {K V : Type} [DecidableEq K] {l : List (K × V)} {k : K}
    (h : alookup l k = none) (v : V) :
    (aset l k v).map Prod.fst = l.map Prod.fst ++ [k] := by
  induction l with
  | nil => simp [aset]
  | cons p rest ih =>
      obtain ⟨a, w⟩ := p
      by_cases hak : a = k
      · subst hak
        simp [alookup] at h
      · simp only [alookup, if_neg hak] at h
        simp [aset, if_neg hak, ih h]

theorem map_fst_aset_of_some {K V : Type} [DecidableEq K] {l : List (K × V)} {k : K} {w₀ : V}
    (h : alookup l k = some w₀) (v : V) :
    (aset l k v).map Prod.fst = l.map Prod.fst := by
  induction l with
  | nil => simp [alookup] at h
  | cons p rest ih =>
      obtain ⟨a, w⟩ := p
      by_cases hak : a = k
      · subst hak
        simp [aset]
      · simp only [alookup, if_neg hak] at h
        simp [aset, if_neg hak, ih h]

theorem sorted_getD_le {arr : List Num} (h : arr.Sorted (· ≤ ·))
    {i j : Nat} (hij : i ≤ j) (hj : j < arr.length) :
    arr.getD i 0 ≤ arr.getD j 0 := by
  rcases Nat.eq_or_lt_of_le hij with rfl | hlt
  · exact le_refl _
  · have hi : i < arr.length := lt_trans hlt hj
    rw [List.getD_eq_getElem arr 0 hi, List.getD_eq_getElem arr 0 hj]
    exact List.pairwise_iff_getElem.mp h i j hi hj hlt

theorem d_pos_iff (a b : Num) : 0 < d a b ↔ b < a := by
  unfold d
  by_cases h1 : a > b
  · simp [h1]
  · by_cases h2 : a < b <;> simp [h1, h2]

theorem d_neg_iff (a b : Num) : d a b < 0 ↔ a < b := by
  unfold d
  by_cases h1 : a > b
  · simp [h1]
    exact le_of_lt h1
  · by_cases h2 : a < b <;> simp [h1, h2]

theorem d_zero_iff (a b : Num) : d a b = 0 ↔ a = b := by
  unfold d
  by_cases h1 : a > b
  · simp [h1]
    exact ne_of_gt h1
  · by_cases h2 : a < b
    · simp [h1, h2]
      exact ne_of_lt h2
    · simp [h1, h2]
      exact le_antisymm (le_of_not_lt h1) (le_of_not_lt h2)

theorem bsLoop_contract {arr : List Num} {el : Num} (hs : arr.Sorted (· ≤ ·)) :
    ∀ (fuel : Nat) (m n : Int),
      0 ≤ m → m ≤ n + 1 → n ≤ (arr.length : Int) - 1 →
      (n + 1 - m).toNat < fuel →
      (∀ j : Nat, (j : Int) < m → arr.getD j 0 < el) →
      (∀ j : Nat, n < (j : Int) → j < arr.length → el < arr.getD j 0) →
      0 ≤ bsLoop arr el d fuel m n ∧
        insertionPointAt arr el (bsLoop arr el d fuel m n).toNat := by
  intro fuel
  induction fuel with
  | zero =>
      intro m n _ _ _ hf _ _
      omega
  | succ fuel ih =>
      intro m n hm hmn1 hn hf hlow hhigh
      by_cases hcond : m ≤ n
      · have hk_lo : m ≤ (n + m) / 2 := by
          have h2 : (2 * m) / 2 ≤ (n + m) / 2 :=
            Int.ediv_le_ediv (by norm_num) (by omega)
          rwa [Int.mul_ediv_cancel_left m (by norm_num)] at h2
        have hk_hi : (n + m) / 2 ≤ n := by
          have h2 : (n + m) / 2 ≤ (2 * n) / 2 :=
            Int.ediv_le_ediv (by norm_num) (by omega)
          rwa [Int.mul_ediv_cancel_left n (by norm_num)] at h2
        have hk_nonneg : 0 ≤ (n + m) / 2 := le_trans hm hk_lo
        have hk_lt_len : ((n + m) / 2).toNat < arr.length := by omega
        have hstep : bsLoop arr el d (fuel + 1) m n =
            (if 0 < d el (arr.getD ((n + m) / 2).toNat 0) then
              bsLoop arr el d fuel ((n + m) / 2 + 1) n
            else if d el (arr.getD ((n + m) / 2).toNat 0) < 0 then
              bsLoop arr el d fuel m ((n + m) / 2 - 1)
            else (n + m) / 2) := by
          simp only [bsLoop, if_pos hcond]
        rcases lt_trichotomy (arr.getD ((n + m) / 2).toNat 0) el with hmid | hmid | hmid
        · -- arr[k] < el : take the `m = k + 1` branch
          rw [hstep, if_pos ((d_pos_iff el _).mpr hmid)]
          refine ih ((n + m) / 2 + 1) n (by omega) (by omega) hn (by omega) ?_ hhigh
          intro j hj
          have hj' : j ≤ ((n + m) / 2).toNat := by omega
          exact lt_of_le_of_lt (sorted_getD_le hs hj' hk_lt_len) hmid
        · -- arr[k] = el : return k
          have hd0 : d el (arr.getD ((n + m) / 2).toNat 0) = 0 :=
            (d_zero_iff el _).mpr hmid.symm
          rw [hstep, if_neg (by omega), if_neg (by omega)]
          refine ⟨hk_nonneg, by omega, ?_, ?_⟩
          · intro j hj
            calc arr.getD j 0 ≤ arr.getD ((n + m) / 2).toNat 0 :=
                  sorted_getD_le hs (by omega) hk_lt_len
              _ = el := hmid
          · intro j hji hjlen
            calc el = arr.getD ((n + m) / 2).toNat 0 := hmid.symm
              _ ≤ arr.getD j 0 := sorted_getD_le hs (by omega) hjlen
        · -- el < arr[k] : take the `n = k - 1` branch
          have hdneg : d el (arr.getD ((n + m) / 2).toNat 0) < 0 :=
            (d_neg_iff el _).mpr hmid
          rw [hstep, if_neg (by omega), if_pos hdneg]
          refine ih m ((n + m) / 2 - 1) hm (by omega) (by omega) (by omega) hlow ?_
          intro j hji hjlen
          have hj' : ((n + m) / 2).toNat ≤ j := by omega
          exact lt_of_lt_of_le hmid (sorted_getD_le hs hj' hjlen)
      · have hstep : bsLoop arr el d (fuel + 1) m n = m := by
          simp only [bsLoop, if_neg hcond]
        rw [hstep]
        refine ⟨hm, by omega, ?_, ?_⟩
        · intro j hj
          exact le_of_lt (hlow j (by omega))
        · intro j hji hjlen
          exact le_of_lt (hhigh j (by omega) hjlen)

/-- The spec §4.1 binary-search contract, for the comparator `d` actually
used by `dataship.util.insert`: on a sorted array the returned index is a
valid insertion point. -/
theorem binarySearch_contract {arr : List Num} {el : Num} (hs : arr.Sorted (· ≤ ·)) :
    0 ≤ binarySearch arr el d ∧
      insertionPointAt arr el (binarySearch arr el d).toNat := by
  unfold binarySearch
  refine bsLoop_contract hs (arr.length + 1) 0 ((arr.length : Int) - 1)
    le_rfl (by omega) (by omega) (by omega) ?_ ?_
  · intro j hj; omega
  · intro j hji hjlen; omega

theorem sorted_insertIdx {arr : List Num} {el : Num} {i : Nat}
    (hip : insertionPointAt arr el i) (hs : arr.Sorted (· ≤ ·)) :
    (arr.insertIdx i el).Sorted (· ≤ ·) := by
  induction arr generalizing i with
  | nil =>
      have : i = 0 := by
        have := hip.1
        simpa using this
      subst this
      simp [List.Sorted]
  | cons x xs ih =>
      obtain ⟨hlen, hle, hge⟩ := hip
      cases i with
      | zero =>
          rw [List.insertIdx_zero]
          refine List.sorted_cons.mpr ⟨?_, hs⟩
          intro b hb
          have hx : el ≤ x := by
            have := hge 0 (Nat.zero_le _) (by simp)
            simpa using this
          rcases List.mem_cons.mp hb with rfl | hbxs
          · exact hx
          · exact le_trans hx ((List.sorted_cons.mp hs).1 b hbxs)
      | succ i =>
          rw [List.insertIdx_succ_cons]
          have hixs : i ≤ xs.length := by simpa using hlen
          refine List.sorted_cons.mpr ⟨?_, ?_⟩
          · intro b hb
            rcases (List.mem_insertIdx hixs).mp hb with rfl | hbxs
            · have := hle 0 (Nat.succ_pos _)
              simpa using this
            · exact (List.sorted_cons.mp hs).1 b hbxs
          · refine ih ⟨hixs, ?_, ?_⟩ (List.sorted_cons.mp hs).2
            · intro j hj
              have := hle (j + 1) (by omega)
              simpa using this
            · intro j hij hjlen
              have := hge (j + 1) (by omega) (by simpa using Nat.succ_lt_succ hjlen)
              simpa using this

/-- `dataship.util.insert` on a sorted array: the result is sorted and is
a permutation of the old array with the new element added. -/
theorem insert_sorted_perm (arr : List Num) (el : Num) (hs : arr.Sorted (· ≤ ·)) :
    (dataship.util.insert arr el).Sorted (· ≤ ·) ∧
      (dataship.util.insert arr el).Perm (el :: arr) := by
  have h := @binarySearch_contract arr el hs
  constructor
  · exact sorted_insertIdx h.2 hs
  · exact List.perm_insertIdx el arr h.2.1

theorem sortedOf_sorted (l : List Num) : (sortedOf l).Sorted (· ≤ ·) :=
  List.sorted_insertionSort _ l

theorem sortedOf_perm (l : List Num) : (sortedOf l).Perm l :=
  List.perm_insertionSort _ l

theorem sortedOf_congr {l l' : List Num} (h : l.Perm l') : sortedOf l = sortedOf l' :=
  List.eq_of_perm_of_sorted ((sortedOf_perm l).trans (h.trans (sortedOf_perm l').symm))
    (sortedOf_sorted l) (sortedOf_sorted l')

theorem sortedOf_eq_self {l : List Num} (h : l.Sorted (· ≤ ·)) : sortedOf l = l :=
  List.eq_of_perm_of_sorted (sortedOf_perm l) (sortedOf_sorted l) h

theorem medianRun_sorted (us : List Num) :
    ∀ (values : List Num) (agg : Num) (n : Nat),
      values.Sorted (· ≤ ·) → n = values.length → 2 ≤ n →
      agg = dataship.reduce.medianRead values →
      dataship.reduce.medianRun (some values) agg n us =
        some (dataship.reduce.medianRead (sortedOf (values ++ us))) := by
  induction us with
  | nil =>
      intro values agg n hsort hn h2 hagg
      simp only [dataship.reduce.medianRun, hagg, List.append_nil,
        sortedOf_eq_self hsort]
  | cons u us ih =>
      intro values agg n hsort hn h2 hagg
      have hn0 : ¬ n = 0 := by omega
      have hn1 : ¬ n = 1 := by omega
      have hmed : dataship.reduce.median (some values) agg u n =
          some (dataship.reduce.medianRead (dataship.util.insert values u),
            some (dataship.util.insert values u)) := by
        simp only [dataship.reduce.median, if_neg hn0, if_neg hn1]
      have hins := insert_sorted_perm values u hsort
      have hlen : (dataship.util.insert values u).length = values.length + 1 := by
        have := hins.2.length_eq
        simpa using this
      have hrec := ih (dataship.util.insert values u)
        (dataship.reduce.medianRead (dataship.util.insert values u)) (n + 1)
        hins.1 (by omega) (by omega) rfl
      have hperm : (dataship.util.insert values u ++ us).Perm (values ++ u :: us) := by
        have h1 : (dataship.util.insert values u ++ us).Perm ((u :: values) ++ us) :=
          hins.2.append_right us
        have h2 : ((u :: values) ++ us) = u :: (values ++ us) := by simp
        rw [h2] at h1
        exact h1.trans (List.perm_middle).symm
      have hunfold : dataship.reduce.medianRun (some values) agg n (u :: us) =
          match dataship.reduce.median (some values) agg u n with
          | none => none
          | some (r, slot') => dataship.reduce.medianRun slot' r (n + 1) us := rfl
      rw [hunfold, hmed]
      show dataship.reduce.medianRun (some (dataship.util.insert values u))
          (dataship.reduce.medianRead (dataship.util.insert values u)) (n + 1) us = _
      rw [hrec, sortedOf_congr hperm]

theorem medianFold_eq_sortedMedian :
    ∀ l : List Num, l ≠ [] → dataship.reduce.medianFold l = some (sortedMedian l) := by
  intro l hl
  match l with
  | [v] => with_unfolding_all rfl
  | v :: u :: us =>
      have hsingle : ([v] : List Num).Sorted (· ≤ ·) := List.sorted_singleton v
      have hins := insert_sorted_perm [v] u hsingle
      have hlen : (dataship.util.insert [v] u).length = 2 := by
        have := hins.2.length_eq
        simpa using this
      have hmed : dataship.reduce.median none v u 1 =
          some (dataship.reduce.medianRead (dataship.util.insert [v] u),
            some (dataship.util.insert [v] u)) := rfl
      have hunfold : dataship.reduce.medianFold (v :: u :: us) =
          match dataship.reduce.median none v u 1 with
          | none => none
          | some (r, slot') => dataship.reduce.medianRun slot' r 2 us := rfl
      rw [hunfold, hmed]
      show dataship.reduce.medianRun (some (dataship.util.insert [v] u))
          (dataship.reduce.medianRead (dataship.util.insert [v] u)) 2 us = _
      rw [medianRun_sorted us (dataship.util.insert [v] u) _ 2 hins.1 hlen.symm le_rfl rfl]
      have hperm : (dataship.util.insert [v] u ++ us).Perm (v :: u :: us) := by
        have h1 : (dataship.util.insert [v] u ++ us).Perm ((u :: [v]) ++ us) :=
          hins.2.append_right us
        exact h1.trans (by
          have : ((u :: [v]) ++ us) = [u, v] ++ us := rfl
          rw [this]
          exact (List.Perm.append_right us (List.Perm.swap v u [])))
      rw [sortedOf_congr hperm]
      rfl

/-- C5: on a sorted sequence, `dataship.util.insert` returns a sorted
sequence; `binarySearch` (with the comparator `d` used by `insert`)
returns a valid insertion point, `0` on the empty sequence (for any
comparator); and starting from the empty sequence the running sequence
is sorted after every insertion, for any insertion order. -/
theorem C5_ordered_insertion :
    (∀ (arr : List Num) (el : Num), arr.Sorted (· ≤ ·) →
        (dataship.util.insert arr el).Sorted (· ≤ ·)) ∧
    (∀ (arr : List Num) (el : Num), arr.Sorted (· ≤ ·) →
        insertionPointAt arr el (binarySearch arr el d).toNat) ∧
    (∀ (el : Num) (cmp : Num → Num → Int), binarySearch [] el cmp = 0) ∧
    (∀ l : List Num, (l.foldl dataship.util.insert []).Sorted (· ≤ ·)) := by
  refine ⟨fun arr el hs => (insert_sorted_perm arr el hs).1,
    fun arr el hs => (binarySearch_contract hs).2,
    fun el cmp => rfl, fun l => ?_⟩
  have main : ∀ (l : List Num) (acc : List Num), acc.Sorted (· ≤ ·) →
      (l.foldl dataship.util.insert acc).Sorted (· ≤ ·) := by
    intro l
    induction l with
    | nil => intro acc hacc; simpa using hacc
    | cons x xs ih =>
        intro acc hacc
        simpa using ih (dataship.util.insert acc x) (insert_sorted_perm acc x hacc).1
  exact main l [] (by simp)

theorem C5_ordered_insertion_witness :
    (([1, 5] : List Num).Sorted (· ≤ ·) ∧
        (dataship.util.insert [1, 5] 3).Sorted (· ≤ ·)) ∧
      insertionPointAt [1, 5] 3 (binarySearch [1, 5] 3 d).toNat ∧
      binarySearch [] 3 d = 0 :=
  ⟨⟨by decide, C5_ordered_insertion.1 [1, 5] 3 (by decide)⟩,
    C5_ordered_insertion.2.1 [1, 5] 3 (by decide),
    C5_ordered_insertion.2.2.1 3 d⟩

/-- C6: feeding any permutation of a non-empty multiset of numbers as one
group's contributions to the `median` reducer yields the median of the
full sorted multiset (middle element if odd, average of the two middle
elements if even); in particular the outcome does not depend on arrival
order. -/
theorem C6_median_order_independence :
    (∀ l : List Num, l ≠ [] →
        dataship.reduce.medianFold l = some (sortedMedian l)) ∧
    (∀ l l' : List Num, l.Perm l' →
        dataship.reduce.medianFold l = dataship.reduce.medianFold l') := by
  refine ⟨medianFold_eq_sortedMedian, fun l l' hperm => ?_⟩
  cases l with
  | nil =>
      have : l' = [] := (hperm.symm).eq_nil
      subst this
      rfl
  | cons v vs =>
      have hl : (v :: vs) ≠ [] := by simp
      have hl' : l' ≠ [] := by
        intro h
        subst h
        exact hl hperm.eq_nil
      rw [medianFold_eq_sortedMedian _ hl, medianFold_eq_sortedMedian _ hl']
      unfold sortedMedian
      rw [sortedOf_congr hperm]

theorem C6_median_order_independence_witness :
    (([5, 1, 3] : List Num) ≠ [] ∧
        dataship.reduce.medianFold [5, 1, 3] = some (sortedMedian [5, 1, 3])) ∧
      sortedMedian ([5, 1, 3] : List Num) = 3 :=
  ⟨⟨by simp, C6_median_order_independence.1 [5, 1, 3] (by simp)⟩, rfl⟩

theorem mem_foldl_firstEncounter {K : Type} [DecidableEq K] (keys : List K) :
    ∀ (acc : List K) (k : K),
      (k ∈ keys.foldl (fun acc k => if k ∈ acc then acc else acc ++ [k]) acc ↔
        k ∈ acc ∨ k ∈ keys) := by
  induction keys with
  | nil => intro acc k; simp
  | cons x xs ih =>
      intro acc k
      by_cases hx : x ∈ acc
      · simp only [List.foldl_cons, if_pos hx, ih]
        constructor
        · rintro (h | h)
          · exact Or.inl h
          · exact Or.inr (List.mem_cons_of_mem x h)
        · rintro (h | h)
          · exact Or.inl h
          · rcases List.mem_cons.mp h with rfl | h
            · exact Or.inl hx
            · exact Or.inr h
      · simp only [List.foldl_cons, if_neg hx, ih]
        constructor
        · rintro (h | h)
          · rcases List.mem_append.mp h with h | h
            · exact Or.inl h
            · simp at h
              subst h
              exact Or.inr (List.mem_cons_self _ _)
          · exact Or.inr (List.mem_cons_of_mem x h)
        · rintro (h | h)
          · exact Or.inl (List.mem_append.mpr (Or.inl h))
          · rcases List.mem_cons.mp h with rfl | h
            · exact Or.inl (List.mem_append.mpr (Or.inr (by simp)))
            · exact Or.inr h

theorem mem_firstEncounter {K : Type} [DecidableEq K] (keys : List K) (k : K) :
    k ∈ firstEncounter keys ↔ k ∈ keys := by
  unfold firstEncounter
  rw [mem_foldl_firstEncounter]
  simp

theorem firstEncounter_append_singleton {K : Type} [DecidableEq K] (keys : List K) (k : K) :
    firstEncounter (keys ++ [k]) =
      if k ∈ firstEncounter keys then firstEncounter keys
      else firstEncounter keys ++ [k] := by
  unfold firstEncounter
  rw [List.foldl_append]
  rfl

theorem contributions_append_singleton {ρ K : Type} [DecidableEq K] (l : List ρ) (r : ρ)
    (g : ρ → K) (s : ρ → DS.Num) (k : K) :
    contributions (l ++ [r]) g s k =
      contributions l g s k ++ (if g r = k then [s r] else []) := by
  unfold contributions
  rw [List.filter_append]
  by_cases h : g r = k
  · simp [List.filter, h]
  · simp [List.filter, h]

theorem contributions_eq_nil_iff {ρ K : Type} [DecidableEq K] (l : List ρ)
    (g : ρ → K) (s : ρ → DS.Num) (k : K) :
    contributions l g s k = [] ↔ k ∉ l.map g := by
  unfold contributions
  rw [List.map_eq_nil_iff, List.filter_eq_nil_iff]
  simp only [List.mem_map, decide_eq_true_eq]
  constructor
  · rintro h ⟨r, hr, hrk⟩
    exact h r hr hrk
  · intro h r hr hrk
    exact h ⟨r, hr, hrk⟩

theorem foldWithCount_append_singleton (red : DS.Num → DS.Num → Nat → DS.Num) :
    ∀ (vs : List DS.Num) (agg : DS.Num) (n : Nat) (v : DS.Num),
      foldWithCount red agg n (vs ++ [v]) =
        red (foldWithCount red agg n vs) v (n + vs.length) := by
  intro vs
  induction vs with
  | nil => intro agg n v; simp [foldWithCount]
  | cons w ws ih =>
      intro agg n v
      show foldWithCount red (red agg w n) (n + 1) (ws ++ [v]) =
        red (foldWithCount red (red agg w n) (n + 1) ws) v (n + (ws.length + 1))
      rw [ih]
      have h : n + 1 + ws.length = n + (ws.length + 1) := by omega
      rw [h]

theorem groupbyStep_new_none {ρ K : Type} [DecidableEq K] {g : ρ → K} {s : ρ → DS.Num}
    {red : DS.Num → DS.Num → Nat → DS.Num} {acc : List (K × DS.Num) × List (K × Nat)}
    {r : ρ} (h : alookup acc.1 (g r) = none) :
    dataship.frame.groupbyStep g s red none acc r =
      (aset acc.1 (g r) (s r), aset acc.2 (g r) 1) := by
  simp only [dataship.frame.groupbyStep, h]

theorem groupbyStep_new_some {ρ K : Type} [DecidableEq K] {g : ρ → K} {s : ρ → DS.Num}
    {red : DS.Num → DS.Num → Nat → DS.Num} {acc : List (K × DS.Num) × List (K × Nat)}
    {r : ρ} {v0 : DS.Num} (h : alookup acc.1 (g r) = none) :
    dataship.frame.groupbyStep g s red (some v0) acc r =
      (aset (aset acc.1 (g r) v0) (g r) (red v0 (s r) 0),
        aset (aset acc.2 (g r) 0) (g r) 1) := by
  simp only [dataship.frame.groupbyStep, h]

theorem groupbyStep_old {ρ K : Type} [DecidableEq K] {g : ρ → K} {s : ρ → DS.Num}
    {red : DS.Num → DS.Num → Nat → DS.Num} {init : Option DS.Num}
    {acc : List (K × DS.Num) × List (K × Nat)}
    {r : ρ} {agg : DS.Num} (h : alookup acc.1 (g r) = some agg) :
    dataship.frame.groupbyStep g s red init acc r =
      (aset acc.1 (g r) (red agg (s r) ((alookup acc.2 (g r)).getD 0)),
        aset acc.2 (g r) ((alookup acc.2 (g r)).getD 0 + 1)) := by
  cases init <;> simp only [dataship.frame.groupbyStep, h]

/-- The per-group characterization of the single-pass engine: after the
pass, the `result` object holds the group keys in first-encounter order,
each bound to the reducer folded over exactly that group's contributions
(with the §4.3 seeding convention), and the `count` object holds each
group's contribution count. -/
theorem groupby_tables {ρ K : Type} [DecidableEq K] (g : ρ → K) (s : ρ → DS.Num)
    (red : DS.Num → DS.Num → Nat → DS.Num) (init : Option DS.Num) (dataset : List ρ) :
    ((dataship.frame.groupbyAcc dataset g s red init).1.map Prod.fst
        = firstEncounter (dataset.map g)) ∧
    (∀ k, alookup (dataship.frame.groupbyAcc dataset g s red init).1 k
        = expectedAgg red init (contributions dataset g s k)) ∧
    (∀ k, alookup (dataship.frame.groupbyAcc dataset g s red init).2 k
        = expectedCount (contributions dataset g s k)) := by
  induction dataset using List.reverseRecOn with
  | nil => exact ⟨rfl, fun k => by cases init <;> rfl, fun k => rfl⟩
  | append_singleton l r ih =>
      obtain ⟨ihmap, ihagg, ihcnt⟩ := ih
      have hacc : dataship.frame.groupbyAcc (l ++ [r]) g s red init =
          dataship.frame.groupbyStep g s red init
            (dataship.frame.groupbyAcc l g s red init) r := by
        unfold dataship.frame.groupbyAcc
        rw [List.foldl_append]
        rfl
      have hfe : firstEncounter ((l ++ [r]).map g) =
          if g r ∈ firstEncounter (l.map g) then firstEncounter (l.map g)
          else firstEncounter (l.map g) ++ [g r] := by
        rw [List.map_append]
        exact firstEncounter_append_singleton (l.map g) (g r)
      rcases hc : contributions l g s (g r) with _ | ⟨w, ws⟩
      · -- the key `g r` is new
        have hnotmem : g r ∉ l.map g := (contributions_eq_nil_iff l g s (g r)).mp hc
        have hlook : alookup (dataship.frame.groupbyAcc l g s red init).1 (g r) = none := by
          rw [ihagg (g r), hc]
          cases init <;> rfl
        have hfe' : firstEncounter ((l ++ [r]).map g) =
            firstEncounter (l.map g) ++ [g r] := by
          rw [hfe, if_neg (fun hmem => hnotmem ((mem_firstEncounter _ _).mp hmem))]
        cases init with
        | none =>
            rw [hacc, groupbyStep_new_none hlook]
            refine ⟨?_, fun k => ?_, fun k => ?_⟩
            · rw [map_fst_aset_of_none hlook, ihmap, hfe']
            · rw [alookup_aset, contributions_append_singleton]
              by_cases hk : g r = k
              · subst hk
                rw [hc]
                simp [expectedAgg, foldWithCount]
              · rw [if_neg hk, if_neg hk, List.append_nil, ihagg k]
            · rw [alookup_aset, contributions_append_singleton]
              by_cases hk : g r = k
              · subst hk
                rw [hc]
                simp [expectedCount]
              · rw [if_neg hk, if_neg hk, List.append_nil, ihcnt k]
        | some v0 =>
            rw [hacc, groupbyStep_new_some hlook]
            refine ⟨?_, fun k => ?_, fun k => ?_⟩
            · rw [map_fst_aset_of_some (by rw [alookup_aset, if_pos rfl]) _,
                map_fst_aset_of_none hlook, ihmap, hfe']
            · rw [alookup_aset, contributions_append_singleton]
              by_cases hk : g r = k
              · subst hk
                rw [hc]
                simp [expectedAgg, foldWithCount]
              · rw [if_neg hk, if_neg hk, List.append_nil, alookup_aset, if_neg hk, ihagg k]
            · rw [alookup_aset, contributions_append_singleton]
              by_cases hk : g r = k
              · subst hk
                rw [hc]
                simp [expectedCount]
              · rw [if_neg hk, if_neg hk, List.append_nil, alookup_aset, if_neg hk, ihcnt k]
      · -- the key `g r` already has contributions
        have hmem : g r ∈ l.map g := by
          by_contra hmem
          have := (contributions_eq_nil_iff l g s (g r)).mpr hmem
          rw [hc] at this
          exact List.cons_ne_nil _ _ this
        have hcount : alookup (dataship.frame.groupbyAcc l g s red init).2 (g r) =
            some (ws.length + 1) := by
          rw [ihcnt (g r), hc]
          rfl
        have hfe' : firstEncounter ((l ++ [r]).map g) = firstEncounter (l.map g) := by
          rw [hfe, if_pos ((mem_firstEncounter _ _).mpr hmem)]
        cases init with
        | none =>
            have hlook : alookup (dataship.frame.groupbyAcc l g s red none).1 (g r) =
                some (foldWithCount red w 1 ws) := by
              rw [ihagg (g r), hc]
              rfl
            rw [hacc, groupbyStep_old hlook, hcount]
            refine ⟨?_, fun k => ?_, fun k => ?_⟩
            · rw [map_fst_aset_of_some hlook, ihmap, hfe']
            · rw [alookup_aset, contributions_append_singleton]
              by_cases hk : g r = k
              · subst hk
                rw [hc, if_pos rfl, if_pos rfl]
                show some (red (foldWithCount red w 1 ws) (s r) ((some (ws.length + 1)).getD 0))
                    = expectedAgg red none ((w :: ws) ++ [s r])
                have hsplit : ((w :: ws) ++ [s r]) = w :: (ws ++ [s r]) := rfl
                rw [hsplit]
                show some (red (foldWithCount red w 1 ws) (s r) (ws.length + 1))
                    = some (foldWithCount red w 1 (ws ++ [s r]))
                rw [foldWithCount_append_singleton]
                have h1 : (1 : Nat) + ws.length = ws.length + 1 := by omega
                rw [h1]
              · rw [if_neg hk, if_neg hk, List.append_nil, ihagg k]
            · rw [alookup_aset, contributions_append_singleton]
              by_cases hk : g r = k
              · subst hk
                rw [hc, if_pos rfl, if_pos rfl]
                simp [expectedCount]
              · rw [if_neg hk, if_neg hk, List.append_nil, ihcnt k]
        | some v0 =>
            have hlook : alookup (dataship.frame.groupbyAcc l g s red (some v0)).1 (g r) =
                some (foldWithCount red v0 0 (w :: ws)) := by
              rw [ihagg (g r), hc]
              rfl
            rw [hacc, groupbyStep_old hlook, hcount]
            refine ⟨?_, fun k => ?_, fun k => ?_⟩
            · rw [map_fst_aset_of_some hlook, ihmap, hfe']
            · rw [alookup_aset, contributions_append_singleton]
              by_cases hk : g r = k
              · subst hk
                rw [hc, if_pos rfl, if_pos rfl]
                show some (red (foldWithCount red v0 0 (w :: ws)) (s r) ((some (ws.length + 1)).getD 0))
                    = expectedAgg red (some v0) ((w :: ws) ++ [s r])
                show some (red (foldWithCount red v0 0 (w :: ws)) (s r) (ws.length + 1))
                    = some (foldWithCount red v0 0 ((w :: ws) ++ [s r]))
                rw [foldWithCount_append_singleton]
                have h1 : (0 : Nat) + (w :: ws).length = ws.length + 1 := by
                  simp
                rw [h1]
              · rw [if_neg hk, if_neg hk, List.append_nil, ihagg k]
            · rw [alookup_aset, contributions_append_singleton]
              by_cases hk : g r = k
              · subst hk
                rw [hc, if_pos rfl, if_pos rfl]
                simp [expectedCount]
              · rw [if_neg hk, if_neg hk, List.append_nil, ihcnt k]

theorem foldWithCount_count (vs : List Num) :
    ∀ (a : Num) (n : Nat), vs ≠ [] →
      foldWithCount dataship.reduce.count a n vs = ((n + vs.length : Nat) : Num) := by
  induction vs with
  | nil => intro a n h; exact absurd rfl h
  | cons w ws ih =>
      intro a n _
      cases ws with
      | nil =>
          show dataship.reduce.count a w n = ((n + 1 : Nat) : Num)
          unfold dataship.reduce.count
          push_cast
          ring
      | cons w2 ws2 =>
          show foldWithCount dataship.reduce.count (dataship.reduce.count a w n) (n + 1)
              (w2 :: ws2) = _
          rw [ih (dataship.reduce.count a w n) (n + 1) (by simp)]
          congr 1
          simp only [List.length_cons]
          omega

/-- C4: `groupby(dataset, grouper)` with the reducer omitted (hence the
`count` reducer and implicit initial value `0`, src 978-981) binds every
occurring group key to the number of rows whose grouper output equals
that key, and binds no other key.  Stated both for `count` with an
arbitrary selector (the selector is ignored by `count`) and for the
fully defaulted call `groupbyDefault`, where the selector defaults to
the grouper. -/
theorem C4_count_correctness {ρ K : Type} [DecidableEq K]
    (dataset : List ρ) (grouper : ρ → K) (selector : ρ → DS.Num) (k : K) :
    (DS.alookup (dataship.frame.groupby dataset grouper selector
          dataship.reduce.count (some 0)) k =
        if 0 < (dataset.filter (fun r => decide (grouper r = k))).length
        then some (((dataset.filter (fun r => decide (grouper r = k))).length : DS.Num))
        else none) ∧
    (∀ (grouper2 : ρ → DS.Num) (k2 : DS.Num),
      DS.alookup (dataship.frame.groupbyDefault dataset grouper2) k2 =
        if 0 < (dataset.filter (fun r => decide (grouper2 r = k2))).length
        then some (((dataset.filter (fun r => decide (grouper2 r = k2))).length : DS.Num))
        else none) := by
  have main : ∀ {K2 : Type} [DecidableEq K2] (g2 : ρ → K2) (s2 : ρ → DS.Num) (k2 : K2),
      DS.alookup (dataship.frame.groupby dataset g2 s2
          dataship.reduce.count (some 0)) k2 =
        if 0 < (dataset.filter (fun r => decide (g2 r = k2))).length
        then some (((dataset.filter (fun r => decide (g2 r = k2))).length : DS.Num))
        else none := by
    intro K2 _ g2 s2 k2
    have h := (groupby_tables g2 s2 dataship.reduce.count (some 0) dataset).2.1 k2
    have hlen : (contributions dataset g2 s2 k2).length =
        (dataset.filter (fun r => decide (g2 r = k2))).length := by
      unfold contributions
      exact List.length_map _ _
    show DS.alookup (dataship.frame.groupbyAcc dataset g2 s2
        dataship.reduce.count (some 0)).1 k2 = _
    rw [h]
    rcases hvs : contributions dataset g2 s2 k2 with _ | ⟨v, vs⟩
    · rw [hvs] at hlen
      simp only [List.length_nil] at hlen
      rw [if_neg (by omega)]
      rfl
    · rw [hvs] at hlen
      simp only [List.length_cons] at hlen
      rw [if_pos (by omega)]
      show some (foldWithCount dataship.reduce.count 0 0 (v :: vs)) = _
      rw [foldWithCount_count (v :: vs) 0 0 (by simp), ← hlen]
      simp
  exact ⟨main grouper selector k, fun g2 k2 => main g2 g2 k2⟩

/-- C9: the seeding convention of the engine (src 1004-1015).  With no
initial value, a new group is seeded with the row's selected value, its
count set to 1 and the reducer skipped for that row — so a group with
exactly one contributing row maps to that row's raw selected value for
*every* reducer, and in general the final aggregate is the reducer
folded from the first contribution with indices starting at 1.  With an
initial value, the group is seeded with it, its count starts at 0, and
the reducer runs on every contributing row including the first. -/
theorem C9_seed_convention {ρ K : Type} [DecidableEq K] :
    (∀ (dataset : List ρ) (g : ρ → K) (s : ρ → DS.Num)
        (red : DS.Num → DS.Num → Nat → DS.Num) (k : K) (v : DS.Num),
      contributions dataset g s k = [v] →
        DS.alookup (dataship.frame.groupby dataset g s red none) k = some v ∧
        DS.alookup (dataship.frame.groupbyCounts dataset g s red none) k = some 1) ∧
    (∀ (dataset : List ρ) (g : ρ → K) (s : ρ → DS.Num)
        (red : DS.Num → DS.Num → Nat → DS.Num) (k : K) (v : DS.Num) (vs : List DS.Num),
      contributions dataset g s k = v :: vs →
        DS.alookup (dataship.frame.groupby dataset g s red none) k =
          some (foldWithCount red v 1 vs)) ∧
    (∀ (dataset : List ρ) (g : ρ → K) (s : ρ → DS.Num)
        (red : DS.Num → DS.Num → Nat → DS.Num) (v0 : DS.Num) (k : K),
      contributions dataset g s k ≠ [] →
        DS.alookup (dataship.frame.groupby dataset g s red (some v0)) k =
          some (foldWithCount red v0 0 (contributions dataset g s k)) ∧
        DS.alookup (dataship.frame.groupbyCounts dataset g s red (some v0)) k =
          some (contributions dataset g s k).length) := by
  refine ⟨?_, ?_, ?_⟩
  · intro dataset g s red k v hcon
    have h1 := (groupby_tables g s red none dataset).2.1 k
    have h2 := (groupby_tables g s red none dataset).2.2 k
    rw [hcon] at h1 h2
    exact ⟨h1, h2⟩
  · intro dataset g s red k v vs hcon
    have h1 := (groupby_tables g s red none dataset).2.1 k
    rw [hcon] at h1
    exact h1
  · intro dataset g s red v0 k hcon
    have h1 := (groupby_tables g s red (some v0) dataset).2.1 k
    have h2 := (groupby_tables g s red (some v0) dataset).2.2 k
    rcases hvs : contributions dataset g s k with _ | ⟨v, vs⟩
    · exact absurd hvs hcon
    · rw [hvs] at h1 h2
      exact ⟨h1, h2⟩

theorem C9_seed_convention_witness :
    (contributions [(("a" : String), (7 : DS.Num))] Prod.fst Prod.snd "a" = [7] ∧
      DS.alookup (dataship.frame.groupby [(("a" : String), (7 : DS.Num))]
          Prod.fst Prod.snd dataship.reduce.sum none) "a" = some 7) ∧
    (contributions [(("a" : String), (7 : DS.Num))] Prod.fst Prod.snd "a" ≠ [] ∧
      DS.alookup (dataship.frame.groupby [(("a" : String), (7 : DS.Num))]
          Prod.fst Prod.snd dataship.reduce.sum (some 2)) "a" =
        some (foldWithCount dataship.reduce.sum 2 0
          (contributions [(("a" : String), (7 : DS.Num))] Prod.fst Prod.snd "a"))) :=
  ⟨⟨by with_unfolding_all rfl,
      ((@C9_seed_convention (String × DS.Num) String _).1
        [("a", 7)] Prod.fst Prod.snd dataship.reduce.sum "a" 7
        (by with_unfolding_all rfl)).1⟩,
    ⟨by simp [contributions],
      ((@C9_seed_convention (String × DS.Num) String _).2.2
        [("a", 7)] Prod.fst Prod.snd dataship.reduce.sum 2 "a"
        (by simp [contributions])).1⟩⟩

/-- C2 (amended): the `result` object stores its keys in first-encounter
order, so the mapping's enumeration order is: the integer-index keys in
ascending numeric order first, followed by the remaining keys in
first-encounter order.  First-encounter enumeration as originally claimed
holds exactly for the keys that are not integer indices — not for numeric
group keys. -/
theorem C2_enumeration_order {ρ : Type} (dataset : List ρ) (grouper : ρ → JsKey)
    (selector : ρ → Num) (reducer : Num → Num → Nat → Num) (initial : Option Num) :
    ((groupbyJs dataset grouper selector reducer initial).map Prod.fst
        = firstEncounter (dataset.map (fun r => propertyKey (grouper r)))) ∧
    (jsOwnKeys (groupbyJs dataset grouper selector reducer initial) =
      ((firstEncounter (dataset.map (fun r => propertyKey (grouper r)))).filter
          isIntegerIndex).mergeSort
          (fun a b => decide (integerIndexVal a ≤ integerIndexVal b))
        ++ (firstEncounter (dataset.map (fun r => propertyKey (grouper r)))).filter
            (fun s => ! isIntegerIndex s)) ∧
    ((∀ s ∈ dataset.map (fun r => propertyKey (grouper r)), isIntegerIndex s = false) →
      jsOwnKeys (groupbyJs dataset grouper selector reducer initial) =
        firstEncounter (dataset.map (fun r => propertyKey (grouper r)))) := by
  have h1 : (groupbyJs dataset grouper selector reducer initial).map Prod.fst
      = firstEncounter (dataset.map (fun r => propertyKey (grouper r))) :=
    (groupby_tables (fun r => propertyKey (grouper r)) selector reducer initial dataset).1
  refine ⟨h1, ?_, ?_⟩
  · unfold jsOwnKeys
    rw [h1]
  · intro hall
    have hallfe : ∀ s ∈ firstEncounter (dataset.map (fun r => propertyKey (grouper r))),
        isIntegerIndex s = false := by
      intro s hs
      exact hall s ((mem_firstEncounter _ _).mp hs)
    unfold jsOwnKeys
    rw [h1]
    have hfilt1 : (firstEncounter (dataset.map (fun r => propertyKey (grouper r)))).filter
        isIntegerIndex = [] := by
      rw [List.filter_eq_nil_iff]
      intro a ha
      rw [hallfe a ha]
      simp
    have hfilt2 : (firstEncounter (dataset.map (fun r => propertyKey (grouper r)))).filter
        (fun s => ! isIntegerIndex s) =
        firstEncounter (dataset.map (fun r => propertyKey (grouper r))) := by
      rw [List.filter_eq_self]
      intro a ha
      rw [hallfe a ha]
      rfl
    rw [hfilt1, hfilt2]
    simp [List.mergeSort]

theorem C2_enumeration_order_witness :
    (∀ s ∈ (["b", "a"] : List String).map
        (fun y => propertyKey (JsKey.str y)), isIntegerIndex s = false) ∧
      jsOwnKeys (groupbyJs ["b", "a"] (fun y => JsKey.str y) (fun _ => 0)
          dataship.reduce.count (some 0)) =
        firstEncounter ((["b", "a"] : List String).map
          (fun y => propertyKey (JsKey.str y))) :=
  ⟨of_decide_eq_true (by with_unfolding_all rfl),
    (C2_enumeration_order ["b", "a"] (fun y => JsKey.str y) (fun _ => 0)
      dataship.reduce.count (some 0)).2.2
      (of_decide_eq_true (by with_unfolding_all rfl))⟩

/-- C2 is false as stated: grouping three rows whose (numeric) group keys
arrive in the order 2006, 1999, 1999 yields an object whose keys
enumerate as `["1999", "2006"]` (ascending integer-index order), not in
the first-encounter order `["2006", "1999"]`. -/
theorem C2_counterexample :
    jsOwnKeys (groupbyJs [(2006 : Int), 1999, 1999] (fun y => JsKey.num y) (fun _ => 0)
        dataship.reduce.count (some 0)) = ["1999", "2006"] ∧
    firstEncounter (([(2006 : Int), 1999, 1999]).map
        (fun y => propertyKey (JsKey.num y))) = ["2006", "1999"] ∧
    (["1999", "2006"] : List String) ≠ ["2006", "1999"] :=
  ⟨by with_unfolding_all rfl, by with_unfolding_all rfl, by decide⟩

/-- C7: the `mode` reducer's argmax only moves to the incoming value, and
only when that value's updated occurrence count strictly exceeds the
recorded count of the current argmax (`agg`, the previously returned
argmax); ties never overwrite.  Concretely, `[1, 3, 3, 7]` folds to `3`,
and in `[1, 3, 1, 3]` the final tie at count 2 leaves the first value to
reach each count, `1`, as the argmax. -/
theorem C7_mode_tie_break :
    (∀ (self : dataship.reduce.ModeState) (agg val : Num) (n : Nat)
        (r : Num) (slot' : Option dataship.reduce.ModeState),
      2 ≤ n → agg = self.argmax →
      dataship.reduce.mode (some self) agg val n = some (r, slot') →
      r ≠ self.argmax →
        r = val ∧
          ∃ cv ca, alookup (dataship.reduce.bump self.values val) val = some cv ∧
            alookup (dataship.reduce.bump self.values val) self.argmax = some ca ∧
            ca < cv) ∧
    dataship.reduce.modeFold [1, 3, 3, 7] = some 3 ∧
    dataship.reduce.modeFold [1, 3, 1, 3] = some 1 := by
  refine ⟨?_, by with_unfolding_all rfl, by with_unfolding_all rfl⟩
  intro self agg val n r slot' hn hagg hmode hne
  have hn0 : ¬ n = 0 := by omega
  have hn1 : ¬ n = 1 := by omega
  rw [dataship.reduce.mode, if_neg hn0, if_neg hn1] at hmode
  simp only [Option.some.injEq] at hmode
  rcases hcv : alookup (dataship.reduce.bump self.values val) val with _ | cv
  · rw [show (match alookup (dataship.reduce.bump self.values val) val,
        alookup (dataship.reduce.bump self.values val) agg with
        | some cv, some ca => if cv > ca then val else self.argmax
        | _, _ => self.argmax) = self.argmax from by rw [hcv]] at hmode
    exact absurd (congrArg Prod.fst hmode).symm hne
  · rcases hca : alookup (dataship.reduce.bump self.values val) agg with _ | ca
    · rw [show (match alookup (dataship.reduce.bump self.values val) val,
          alookup (dataship.reduce.bump self.values val) agg with
          | some cv, some ca => if cv > ca then val else self.argmax
          | _, _ => self.argmax) = self.argmax from by rw [hcv, hca]] at hmode
      exact absurd (congrArg Prod.fst hmode).symm hne
    · by_cases hgt : cv > ca
      · rw [show (match alookup (dataship.reduce.bump self.values val) val,
            alookup (dataship.reduce.bump self.values val) agg with
            | some cv, some ca => if cv > ca then val else self.argmax
            | _, _ => self.argmax) = val from by rw [hcv, hca]; exact if_pos hgt] at hmode
        subst hagg
        exact ⟨(congrArg Prod.fst hmode).symm, cv, ca, by simp [hcv], by simp [hca], hgt⟩
      · rw [show (match alookup (dataship.reduce.bump self.values val) val,
            alookup (dataship.reduce.bump self.values val) agg with
            | some cv, some ca => if cv > ca then val else self.argmax
            | _, _ => self.argmax) = self.argmax from by rw [hcv, hca]; exact if_neg hgt] at hmode
        exact absurd (congrArg Prod.fst hmode).symm hne

theorem C7_mode_tie_break_witness :
    ((2 : Nat) ≤ 2 ∧ (1 : Num) = (dataship.reduce.ModeState.mk [(1, 1), (3, 1)] 1).argmax ∧
      dataship.reduce.mode (some (dataship.reduce.ModeState.mk [(1, 1), (3, 1)] 1)) 1 3 2 =
        some (3, some (dataship.reduce.ModeState.mk [(1, 1), (3, 2)] 3)) ∧
      (3 : Num) ≠ (dataship.reduce.ModeState.mk [(1, 1), (3, 1)] 1).argmax) ∧
    ((3 : Num) = 3 ∧
      ∃ cv ca, alookup (dataship.reduce.bump [(1, 1), (3, 1)] 3) 3 = some cv ∧
        alookup (dataship.reduce.bump [(1, 1), (3, 1)] 3)
          (dataship.reduce.ModeState.mk [(1, 1), (3, 1)] 1).argmax = some ca ∧
        ca < cv) :=
  ⟨⟨le_rfl, by with_unfolding_all rfl, by with_unfolding_all rfl,
      by with_unfolding_all decide⟩,
    by
      have h := (C7_mode_tie_break.1 (dataship.reduce.ModeState.mk [(1, 1), (3, 1)] 1)
        1 3 2 3 (some (dataship.reduce.ModeState.mk [(1, 1), (3, 2)] 3))
        le_rfl (by with_unfolding_all rfl) (by with_unfolding_all rfl)
        (by with_unfolding_all decide))
      exact ⟨h.1, h.2⟩⟩

/-- C1 is violated by the code: `median`'s auxiliary state lives in the
single global slot `dataship.reduce.mode.state` (src 406, 409), which
`groupby`'s per-group swap of `reducer.state` (= `median.state`,
src 1018-1020) never touches.  Interleaving two groups therefore makes
group A's third contribution read group B's sorted sample: the dataset
a:5, b:10, a:1, b:20, a:3 yields median 10 for group "a", whereas
running "a"'s contributions 5, 1, 3 alone (as isolation demands) yields
3. -/
theorem C1_median_state_leak :
    dataship.frame.groupbyMedian
        ([("a", 5), ("b", 10), ("a", 1), ("b", 20), ("a", 3)] :
          List (String × Num)) Prod.fst Prod.snd =
      some [("a", 10), ("b", 15)] ∧
    dataship.frame.groupbyMedian
        ([("a", 5), ("a", 1), ("a", 3)] : List (String × Num)) Prod.fst Prod.snd =
      some [("a", 3)] ∧
    dataship.reduce.medianFold [5, 1, 3] = some 3 ∧
    (10 : Num) ≠ 3 :=
  ⟨by with_unfolding_all rfl, by with_unfolding_all rfl,
    by with_unfolding_all rfl, by with_unfolding_all decide⟩

theorem intervalIndexFrom_shift (v : Num) :
    ∀ (bs : List Num) (i : Nat),
      dataship.frame.groupers.intervalIndexFrom v bs i =
        i + dataship.frame.groupers.intervalIndexFrom v bs 0 := by
  intro bs
  induction bs with
  | nil => intro i; simp [dataship.frame.groupers.intervalIndexFrom]
  | cons b bs ih =>
      intro i
      by_cases hv : v < b
      · simp [dataship.frame.groupers.intervalIndexFrom, hv]
      · simp only [dataship.frame.groupers.intervalIndexFrom, if_neg hv]
        rw [ih (i + 1), ih 1]
        omega

theorem intervalIndexFrom_spec (v : Num) :
    ∀ (bs : List Num),
      dataship.frame.groupers.intervalIndexFrom v bs 0 ≤ bs.length ∧
      (dataship.frame.groupers.intervalIndexFrom v bs 0 < bs.length →
        v < bs.getD (dataship.frame.groupers.intervalIndexFrom v bs 0) 0) ∧
      (∀ t, t < dataship.frame.groupers.intervalIndexFrom v bs 0 →
        ¬ v < bs.getD t 0) := by
  intro bs
  induction bs with
  | nil =>
      refine ⟨le_rfl, ?_, ?_⟩
      · intro h
        simp [dataship.frame.groupers.intervalIndexFrom] at h
      · intro t ht
        simp [dataship.frame.groupers.intervalIndexFrom] at ht
  | cons b bs ih =>
      by_cases hv : v < b
      · have h0 : dataship.frame.groupers.intervalIndexFrom v (b :: bs) 0 = 0 := by
          simp [dataship.frame.groupers.intervalIndexFrom, hv]
        rw [h0]
        exact ⟨Nat.zero_le _, fun _ => hv, fun t ht => absurd ht (Nat.not_lt_zero t)⟩
      · have h0 : dataship.frame.groupers.intervalIndexFrom v (b :: bs) 0 =
            1 + dataship.frame.groupers.intervalIndexFrom v bs 0 := by
          simp only [dataship.frame.groupers.intervalIndexFrom, if_neg hv]
          exact intervalIndexFrom_shift v bs 1
        rw [h0]
        obtain ⟨ih1, ih2, ih3⟩ := ih
        refine ⟨by simp only [List.length_cons]; omega, ?_, ?_⟩
        · intro hlt
          have : dataship.frame.groupers.intervalIndexFrom v bs 0 < bs.length := by
            simp only [List.length_cons] at hlt
            omega
          have := ih2 this
          have harr : (b :: bs).getD (1 + dataship.frame.groupers.intervalIndexFrom v bs 0) 0 =
              bs.getD (dataship.frame.groupers.intervalIndexFrom v bs 0) 0 := by
            have h1 : 1 + dataship.frame.groupers.intervalIndexFrom v bs 0 =
                dataship.frame.groupers.intervalIndexFrom v bs 0 + 1 := by omega
            rw [h1, List.getD_cons_succ]
          rw [harr]
          exact this
        · intro t ht
          cases t with
          | zero => simpa using hv
          | succ t =>
              rw [List.getD_cons_succ]
              exact ih3 t (by omega)

/-- C8: the binning grouper built by `interval` maps a selected value to
the index of the first bound strictly greater than it (`bounds.length`
when no bound exceeds it); with exactly `bounds.length` labels the
bounded intervals use the given labels and the unbounded one gets
`">" ++` the last label; with no labels, or fewer labels than bounds,
intervals are labeled by their plain integer index.  End-to-end, bounds
`[8]` send 8.9 and 8.7 to interval 1 and 7.6 to interval 0. -/
theorem C8_interval_binning {ρ : Type} (selector : ρ → Num) (row : ρ)
    (bounds : List Num) (hs : bounds.Sorted (· ≤ ·)) :
    (dataship.frame.groupers.intervalIndexFrom (selector row) bounds 0 ≤ bounds.length ∧
      (dataship.frame.groupers.intervalIndexFrom (selector row) bounds 0 < bounds.length →
        selector row <
          bounds.getD (dataship.frame.groupers.intervalIndexFrom (selector row) bounds 0) 0) ∧
      (∀ t, t < dataship.frame.groupers.intervalIndexFrom (selector row) bounds 0 →
        ¬ selector row < bounds.getD t 0)) ∧
    (∀ ls : List String, ls.length = bounds.length → ls ≠ [] →
      (∀ i, i < ls.length →
        dataship.frame.groupers.labeler bounds (some ls) i =
          dataship.frame.groupers.Lbl.str (ls.getD i "undefined")) ∧
      dataship.frame.groupers.labeler bounds (some ls) bounds.length =
        dataship.frame.groupers.Lbl.str (">" ++ ls.getD (ls.length - 1) "undefined")) ∧
    (∀ ls : List String, ls.length < bounds.length →
      ∀ i, dataship.frame.groupers.labeler bounds (some ls) i =
        dataship.frame.groupers.Lbl.idx i) ∧
    (∀ i, dataship.frame.groupers.labeler bounds none i = dataship.frame.groupers.Lbl.idx i) ∧
    (dataship.frame.groupers.interval [8] none (89 / 10) = dataship.frame.groupers.Lbl.idx 1 ∧
      dataship.frame.groupers.interval [8] none (87 / 10) = dataship.frame.groupers.Lbl.idx 1 ∧
      dataship.frame.groupers.interval [8] none (76 / 10) = dataship.frame.groupers.Lbl.idx 0) := by
  refine ⟨intervalIndexFrom_spec (selector row) bounds, ?_, ?_, ?_, ?_⟩
  · intro ls hlen hne
    have hnotlt : ¬ ls.length < bounds.length := by omega
    have hnotge : ¬ ls.length ≥ bounds.length + 1 := by omega
    constructor
    · intro i hi
      simp only [dataship.frame.groupers.labeler]
      rw [if_neg hnotlt, if_neg hnotge, if_pos hi]
    · have hnotlt2 : ¬ bounds.length < ls.length := by omega
      simp only [dataship.frame.groupers.labeler]
      rw [if_neg hnotlt, if_neg hnotge, if_neg hnotlt2, ← hlen]
  · intro ls hlen i
    simp only [dataship.frame.groupers.labeler]
    rw [if_pos hlen]
  · intro i
    rfl
  · exact ⟨by with_unfolding_all rfl, by with_unfolding_all rfl,
      by with_unfolding_all rfl⟩

theorem C8_interval_binning_witness :
    ((8 : Num) :: []).Sorted (· ≤ ·) ∧
      (dataship.frame.groupers.intervalIndexFrom ((89 : Num) / 10) [8] 0 ≤ ([8] : List Num).length ∧
        ∀ ls : List String, ls.length = ([(8 : Num)] : List Num).length → ls ≠ [] →
          dataship.frame.groupers.labeler [8] (some ls) 1 =
            dataship.frame.groupers.Lbl.str (">" ++ ls.getD (ls.length - 1) "undefined")) :=
  ⟨by decide,
    (C8_interval_binning (fun v : Num => v) ((89 : Num) / 10) [8] (by decide)).1.1,
    fun ls hlen hne =>
      ((C8_interval_binning (fun v : Num => v) ((89 : Num) / 10) [8] (by decide)).2.1
        ls hlen hne).2⟩

/-- C3 (amended): `groupby` performs no validation of the grouper /
selector shape; a non-string non-callable argument survives resolution
untouched, the call returns the empty mapping without any error on an
empty dataset, and otherwise fails only inside the per-row pass, when
the first row's `grouper(row)` (or `selector(row)`) application throws a
TypeError. -/
theorem C3_invalid_argument_fails_in_pass :
    (∀ (dataset : List Row) (selector : dataship.frame.SelArg),
      dataship.frame.groupbyArg dataset dataship.frame.SelArg.other selector =
        if dataset.isEmpty then Except.ok []
        else Except.error dataship.frame.PassError.notAFunction) ∧
    (∀ (dataset : List Row) (g : Row → Num),
      dataship.frame.groupbyArg dataset (dataship.frame.SelArg.fn g)
          dataship.frame.SelArg.other =
        if dataset.isEmpty then Except.ok []
        else Except.error dataship.frame.PassError.notAFunction) := by
  constructor
  · intro dataset selector
    cases dataset with
    | nil => rfl
    | cons r rest => rfl
  · intro dataset g
    cases dataset with
    | nil => rfl
    | cons r rest => rfl

/-- C3 is false as stated: with a grouper that is neither a string nor a
callable, the call does not fail at selector-resolution time.  On an
empty dataset it succeeds, returning the empty mapping; on a non-empty
dataset the failure is the pass's per-row TypeError (resolution,
src 983-993, is a total pass-through with no error path at all). -/
theorem C3_counterexample :
    dataship.frame.groupbyArg [] dataship.frame.SelArg.other
        dataship.frame.SelArg.other = Except.ok [] ∧
    dataship.frame.groupbyArg [[("Year", 1999)]] dataship.frame.SelArg.other
        dataship.frame.SelArg.other =
      Except.error dataship.frame.PassError.notAFunction :=
  ⟨rfl, rfl⟩

theorem foldl_range_getD {α β : Type} (l : List α) (dflt : α) (f : β → α → β) :
    ∀ (b : β), (List.range l.length).foldl (fun acc i => f acc (l.getD i dflt)) b
      = l.foldl f b := by
  induction l with
  | nil => intro b; rfl
  | cons x xs ih =>
      intro b
      rw [List.length_cons, List.range_succ_eq_map, List.foldl_cons, List.foldl_map]
      simp only [List.getD_cons_zero, List.getD_cons_succ]
      exact ih (f b x)

theorem groupbyFrame_fold_split (gf sf : String)
    (reducer : Num → Num → Nat → Num) (initial : Option Num) (rows : List Row) :
    ∀ (is : List Nat) (acc : List (Num × Num) × List (Num × Nat)),
      is.foldl (dataship.frame.groupbyFrameStep gf sf reducer initial) (acc, rows) =
        (is.foldl (fun a i =>
            dataship.frame.groupbyStep (fun row => getField row gf)
              (fun row => getField row sf) reducer initial a (rows.getD i []))
          acc,
          rows) := by
  intro is
  induction is with
  | nil => intro acc; rfl
  | cons i is ih =>
      intro acc
      rw [List.foldl_cons, List.foldl_cons]
      exact ih _

theorem groupbyMedianFrame_snd (gf sf : String) (rows : List Row) :
    ∀ (is : List Nat)
      (acc : Option (List (Num × Num) × List (Num × Nat) × Option (List Num))),
      (is.foldl (dataship.frame.groupbyMedianFrameStep gf sf) (acc, rows)).2 = rows := by
  intro is
  induction is with
  | nil => intro acc; rfl
  | cons i is ih =>
      intro acc
      rw [List.foldl_cons]
      cases acc with
      | none => exact ih none
      | some a => exact ih _

theorem groupbyModeFrame_snd (gf sf : String) (rows : List Row) :
    ∀ (is : List Nat)
      (acc : Option (List (Num × Num) × List (Num × Nat) ×
        List (Num × Option dataship.reduce.ModeState))),
      (is.foldl (dataship.frame.groupbyModeFrameStep gf sf) (acc, rows)).2 = rows := by
  intro is
  induction is with
  | nil => intro acc; rfl
  | cons i is ih =>
      intro acc
      rw [List.foldl_cons]
      cases acc with
      | none => exact ih none
      | some a => exact ih _

/-- C10: a `groupby` pass over a frame, with a field-name grouper and
selector and any of the built-in reducers — any pure reducer function
(which covers `count`, `sum`, `mean`, `min`, `max`), `median`, or
`mode` — leaves the frame exactly as it was (every iteration only reads
`dataset[i]` and the row's fields, and writes only the engine-local
`result`/`count`/`state` objects, all freshly created at the start of
the call), and its result object is a pure function of the dataset
contents (it equals the reference `groupby` on the same rows). -/
theorem C10_frame_unchanged :
    (∀ (rows : List Row) (gf sf : String) (reducer : Num → Num → Nat → Num)
        (initial : Option Num),
      (dataship.frame.groupbyFrame rows gf sf reducer initial).2 = rows) ∧
    (∀ (rows : List Row) (gf sf : String) (reducer : Num → Num → Nat → Num)
        (initial : Option Num),
      (dataship.frame.groupbyFrame rows gf sf reducer initial).1 =
        dataship.frame.groupby rows (fun row => getField row gf)
          (fun row => getField row sf) reducer initial) ∧
    (∀ (rows : List Row) (gf sf : String),
      (dataship.frame.groupbyMedianFrame rows gf sf).2 = rows) ∧
    (∀ (rows : List Row) (gf sf : String),
      (dataship.frame.groupbyModeFrame rows gf sf).2 = rows) := by
  refine ⟨?_, ?_, ?_, ?_⟩
  · intro rows gf sf reducer initial
    unfold dataship.frame.groupbyFrame
    rw [groupbyFrame_fold_split]
  · intro rows gf sf reducer initial
    unfold dataship.frame.groupbyFrame
    rw [groupbyFrame_fold_split]
    show ((List.range rows.length).foldl (fun a i =>
        dataship.frame.groupbyStep (fun row => getField row gf)
          (fun row => getField row sf) reducer initial a (rows.getD i []))
        ([], [])).1 = _
    rw [foldl_range_getD rows []
      (dataship.frame.groupbyStep (fun row => getField row gf)
        (fun row => getField row sf) reducer initial) ([], [])]
    rfl
  · intro rows gf sf
    unfold dataship.frame.groupbyMedianFrame
    rw [groupbyMedianFrame_snd]
  · intro rows gf sf
    unfold dataship.frame.groupbyModeFrame
    rw [groupbyModeFrame_snd]

end DS
